import Mathlib

/-!
Verification of the heuristic payload reconstruction engine of `main.py`
(a forensic recovery tool that rebuilds chat records from a captured HAR
transaction log).

Shallow-embedding conventions, fixed once for the whole development:

* Python strings are modelled as `List Char` (`Str`).  Python's notion of
  whitespace for `str.strip`, `str.isspace` and the regex class `\s` is
  modelled by the six ASCII whitespace characters; exotic Unicode
  whitespace is not modelled (no claim involves it).
* Python `datetime` values are modelled by their integer count of
  microseconds since the epoch.  This is exact: a Python `datetime` stores
  integer microseconds, `datetime.fromtimestamp(item / 1_000_000)` yields
  the datetime with microsecond count `item`, and
  `datetime.fromtimestamp(item / 1_000)` yields microsecond count
  `item * 1000`.  (The sub-microsecond float rounding of the source's
  float division is below the datetime resolution for all timestamps
  below the year ~2255 and is not modelled.)  The local timezone is
  modelled as a fixed zero offset (UTC), under which `isoformat` is a
  strictly monotone injection from datetimes to strings, so the record
  field `date` (an ISO string in the source, compared for equality by the
  deduplicator and lexicographically by the sorts) is represented
  directly by the microsecond integer: equality and order of the ISO
  strings coincide with equality and order of these integers.
* The JSON values produced by Python's `json` module are modelled by the
  inductive `JVal`.  Python floats appearing in JSON are carried as their
  source literal (constructor `jfloat`); no claim depends on float
  arithmetic.  `json.loads` / `JSONDecoder.raw_decode` are modelled by an
  executable parser (`raw_decode`, `json_loads`) mirroring the stdlib
  scanner; the single deliberate deviation is that `\uXXXX` escapes
  denoting lone surrogates make the model parser fail where Python would
  keep a lone-surrogate character (Lean `Char` cannot hold one); no claim
  involves lone surrogates.
* External collaborators are parameters: the `markdownify` renderer is an
  opaque function `md : Str → Str`, and BeautifulSoup's extraction of
  `<script>` text contents from an HTML document is an opaque function
  `scripts : Str → List Str`.  File I/O, base64 transport decoding and
  URL query parsing sit outside the engine (spec §4.1/§6); a
  `Transaction` therefore carries the already-decoded body text and the
  already-extracted `f.sid` session hint.
-/

/-- Python strings as lists of characters. -/
abbrev Str := List Char

/-- The whitespace characters of Python's `str.strip` / `str.isspace` and of
the regex class `\s` (ASCII fragment; Unicode whitespace unmodelled). -/
def isPySpace (c : Char) : Bool :=
  c = ' ' || c = '\t' || c = '\n' || c = '\r' || c = '\x0b' || c = '\x0c'

/-- The whitespace the stdlib `json` module skips between tokens
(`json.decoder.WHITESPACE`): space, tab, newline, carriage return only. -/
def isJsonWS (c : Char) : Bool :=
  c = ' ' || c = '\t' || c = '\n' || c = '\r'

/-- Python `str.strip()`: remove leading and trailing whitespace. -/
def pyStrip (s : Str) : Str :=
  ((s.dropWhile isPySpace).reverse.dropWhile isPySpace).reverse

/-- Python `needle in haystack` on strings: substring containment. -/
def strIn (needle : Str) : Str → Bool
  | [] => needle.isEmpty
  | c :: rest => needle.isPrefixOf (c :: rest) || strIn needle rest

/-- The character class `[["{]` of the length-marker regex in
the Framing Stripper (`main.py` line 26): `[`, `"` or `{`. -/
def jsonOpenChar (c : Char) : Bool :=
  c = '[' || c = '"' || c = '\x7b'

/-- The anti-hijacking literal prefix checked at `main.py` line 22. -/
def antiHijack : Str := [')', ']', '\x7d', '\x27']

/-- The regex search `^[0-9]+\s*([["{])` of `main.py` line 26, returning
`text[match.start(1):]` on a match.  Because the digit class, `\s` and the
bracket class are pairwise disjoint, the greedy match is deterministic:
take the maximal leading digit run (nonempty), then the maximal whitespace
run, and require the next character to lie in the bracket class. -/
def dropLengthMarker (s : Str) : Option Str :=
  let ds := s.takeWhile Char.isDigit
  let rest := (s.dropWhile Char.isDigit).dropWhile isPySpace
  if ds = [] then none
  else
    match rest with
    | [] => none
    | c :: _ => if jsonOpenChar c then some rest else none

/-- The Framing Stripper (source function at `main.py` lines 20-29):
drop the `)]}'` prefix if present, strip surrounding whitespace, then cut
the length marker matched by `^[0-9]+\s*([["{])` if any. -/
def stripJsonFraming (s : Str) : Str :=
  let s1 := if antiHijack.isPrefixOf s then s.drop 4 else s
  let s2 := pyStrip s1
  match dropLengthMarker s2 with
  | some r => r
  | none => s2

-- Small auxiliary list facts used throughout.

theorem takeWhile_of_all {p : Char → Bool} :
    ∀ (d rest : Str), (∀ x ∈ d, p x = true) →
      (rest = [] ∨ ∃ y t, rest = y :: t ∧ p y = false) →
      (d ++ rest).takeWhile p = d ∧ (d ++ rest).dropWhile p = rest := by
  intro d
  induction d with
  | nil =>
      intro rest _ hr
      rcases hr with h | ⟨y, t, rfl, hy⟩
      · subst h; exact ⟨rfl, rfl⟩
      · simp [List.takeWhile_cons, List.dropWhile_cons, hy]
  | cons a d ih =>
      intro rest hd hr
      have ha : p a = true := hd a (by simp)
      have h' := ih rest (fun x hx => hd x (by simp [hx])) hr
      rw [List.cons_append, List.takeWhile_cons, List.dropWhile_cons]
      simp [ha, h'.1, h'.2]

theorem dropWhile_head_false {p : Char → Bool} :
    ∀ (l : Str) (y : Char) (t : Str), l.dropWhile p = y :: t → p y = false := by
  intro l
  induction l with
  | nil => intro y t h; simp at h
  | cons a l ih =>
      intro y t h
      rw [List.dropWhile_cons] at h
      by_cases ha : p a = true
      · exact ih y t (by simpa [ha] using h)
      · have ha' : p a = false := by simpa using ha
        rw [if_neg (by simp [ha'])] at h
        injection h with h1 h2
        subst h1
        exact ha'

theorem dropWhile_of_head_false {p : Char → Bool} (y : Char) (t : Str)
    (hy : p y = false) : (y :: t).dropWhile p = y :: t := by
  simp [List.dropWhile_cons, hy]

theorem dropWhile_idem {p : Char → Bool} (l : Str) :
    (l.dropWhile p).dropWhile p = l.dropWhile p := by
  cases h : l.dropWhile p with
  | nil => rfl
  | cons y t => exact dropWhile_of_head_false y t (dropWhile_head_false l y t h)

theorem isPySpace_not_digit {c : Char} (h : isPySpace c = true) :
    c.isDigit = false := by
  simp only [isPySpace, Bool.or_eq_true, decide_eq_true_eq] at h
  rcases h with ((((h | h) | h) | h) | h) | h <;> subst h <;> decide

theorem jsonOpenChar_not_digit {c : Char} (h : jsonOpenChar c = true) :
    c.isDigit = false := by
  simp only [jsonOpenChar, Bool.or_eq_true, decide_eq_true_eq] at h
  rcases h with (h | h) | h <;> subst h <;> decide

theorem jsonOpenChar_not_space {c : Char} (h : jsonOpenChar c = true) :
    isPySpace c = false := by
  simp only [jsonOpenChar, Bool.or_eq_true, decide_eq_true_eq] at h
  rcases h with (h | h) | h <;> subst h <;> decide

/-- On a declarative decomposition `digits ++ (spaces ++ open :: rest)` of the
trimmed text, the length-marker matcher fires and returns `open :: rest`. -/
theorem dropLengthMarker_of_decomp (d w r : Str) (c : Char)
    (hd : d ≠ []) (hdd : ∀ x ∈ d, x.isDigit = true)
    (hw : ∀ x ∈ w, isPySpace x = true) (hc : jsonOpenChar c = true) :
    dropLengthMarker (d ++ (w ++ c :: r)) = some (c :: r) := by
  have hhead : (w ++ c :: r) = [] ∨
      ∃ y t, (w ++ c :: r) = y :: t ∧ y.isDigit = false := by
    cases w with
    | nil => exact Or.inr ⟨c, r, rfl, jsonOpenChar_not_digit hc⟩
    | cons a w' =>
        exact Or.inr ⟨a, w' ++ c :: r, rfl, isPySpace_not_digit (hw a (by simp))⟩
  have h1 := takeWhile_of_all d (w ++ c :: r) hdd hhead
  have h2 := takeWhile_of_all (p := isPySpace) w (c :: r) hw
      (Or.inr ⟨c, r, rfl, jsonOpenChar_not_space hc⟩)
  simp only [dropLengthMarker, h1.1, h1.2, h2.2, if_neg hd]
  simp [hc]

/-- Conversely, a successful length-marker match always arises from such a
decomposition. -/
theorem dropLengthMarker_decomp (s res : Str)
    (h : dropLengthMarker s = some res) :
    ∃ d w c r, s = d ++ (w ++ c :: r) ∧ d ≠ [] ∧ (∀ x ∈ d, x.isDigit = true) ∧
      (∀ x ∈ w, isPySpace x = true) ∧ jsonOpenChar c = true ∧ res = c :: r := by
  simp only [dropLengthMarker] at h
  by_cases hds : s.takeWhile Char.isDigit = []
  · rw [if_pos hds] at h; exact absurd h (by simp)
  · rw [if_neg hds] at h
    cases hrest : (s.dropWhile Char.isDigit).dropWhile isPySpace with
    | nil => rw [hrest] at h; exact absurd h (by simp)
    | cons c r =>
        rw [hrest] at h
        simp at h
        obtain ⟨hc, hres⟩ := h
        refine ⟨s.takeWhile Char.isDigit,
          (s.dropWhile Char.isDigit).takeWhile isPySpace, c, r, ?_, hds,
          fun x hx => List.mem_takeWhile_imp hx,
          fun x hx => List.mem_takeWhile_imp hx, hc, hres.symm⟩
        conv_lhs => rw [← List.takeWhile_append_dropWhile (p := Char.isDigit) (l := s)]
        congr 1
        rw [← hrest]
        exact (List.takeWhile_append_dropWhile ..).symm

-- ## The JSON value model and the stdlib `json` parser

/-- A parsed Python JSON value (`json.loads` result).  Python floats are
carried as their source literal text (`jfloat`); objects are association
lists in dict insertion order (duplicate keys resolved as `dict` does:
first position, last value). -/
inductive JVal where
  | null
  | jbool (b : Bool)
  | jint (n : Int)
  | jfloat (lit : Str)
  | jstr (s : Str)
  | jarr (items : List JVal)
  | jobj (members : List (Str × JVal))

/-- Value of a hex digit, for `\uXXXX` escapes. -/
def hexVal (c : Char) : Option Nat :=
  if '0' ≤ c ∧ c ≤ '9' then some (c.toNat - 48)
  else if 'a' ≤ c ∧ c ≤ 'f' then some (c.toNat - 87)
  else if 'A' ≤ c ∧ c ≤ 'F' then some (c.toNat - 55)
  else none

/-- Read exactly four hex digits. -/
def readHex4 : Str → Option (Nat × Str)
  | h1 :: h2 :: h3 :: h4 :: rest =>
    match hexVal h1, hexVal h2, hexVal h3, hexVal h4 with
    | some a, some b, some c, some d => some ((((a * 16 + b) * 16 + c) * 16 + d), rest)
    | _, _, _, _ => none
  | _ => none

/-- The single-character escapes of JSON strings. -/
def escChar (e : Char) : Option Char :=
  if e = '"' then some '"'
  else if e = '\\' then some '\\'
  else if e = '/' then some '/'
  else if e = 'b' then some '\x08'
  else if e = 'f' then some '\x0c'
  else if e = 'n' then some '\n'
  else if e = 'r' then some '\r'
  else if e = 't' then some '\t'
  else none

/-- JSON string body parser (`json.decoder.py_scanstring`, strict mode),
entered after the opening quote; returns the decoded content and the text
after the closing quote.  Fuel decreases at every step; `length + 1` is
always sufficient since each step consumes at least one character.
Deviation noted in the header: a `\uXXXX` escape denoting a lone
surrogate fails here (Python keeps a lone-surrogate character). -/
def parseStringBody : Nat → Str → Option (Str × Str)
  | 0, _ => none
  | _, [] => none
  | fuel + 1, c :: rest =>
    if c = '"' then some ([], rest)
    else if c = '\\' then
      match rest with
      | [] => none
      | e :: rest2 =>
        if e = 'u' then
          match readHex4 rest2 with
          | none => none
          | some (code, rest3) =>
            if 0xD800 ≤ code ∧ code < 0xDC00 then
              match rest3 with
              | '\\' :: 'u' :: rest4 =>
                match readHex4 rest4 with
                | none => none
                | some (lo, rest5) =>
                  if 0xDC00 ≤ lo ∧ lo < 0xE000 then
                    let cp := 0x10000 + (code - 0xD800) * 0x400 + (lo - 0xDC00)
                    (parseStringBody fuel rest5).map (fun p => (Char.ofNat cp :: p.1, p.2))
                  else none
              | _ => none
            else if 0xDC00 ≤ code ∧ code < 0xE000 then none
            else (parseStringBody fuel rest3).map (fun p => (Char.ofNat code :: p.1, p.2))
        else
          match escChar e with
          | some ch => (parseStringBody fuel rest2).map (fun p => (ch :: p.1, p.2))
          | none => none
    else if c.toNat < 32 then none
    else (parseStringBody fuel rest).map (fun p => (c :: p.1, p.2))

/-- Decimal digits to a natural number. -/
def digitsToNat (ds : Str) : Nat :=
  ds.foldl (fun acc c => acc * 10 + (c.toNat - 48)) 0

/-- The integer part `(-?(0|[1-9]\d*))` of the json `NUMBER_RE`:
a `0` matches alone, otherwise a maximal nonzero-led digit run. -/
def parseIntPart : Str → Option (Str × Str)
  | [] => none
  | c :: rest =>
    if c = '0' then some (['0'], rest)
    else if c.isDigit then
      some (c :: rest.takeWhile Char.isDigit, rest.dropWhile Char.isDigit)
    else none

/-- The optional fraction part `(\.\d+)?`: consumed only when a dot is
followed by at least one digit. -/
def parseFracPart : Str → Str × Str
  | '.' :: rest =>
      let ds := rest.takeWhile Char.isDigit
      if ds = [] then ([], '.' :: rest) else ('.' :: ds, rest.dropWhile Char.isDigit)
  | s => ([], s)

/-- The optional exponent part `([eE][-+]?\d+)?`: consumed only when a
complete exponent is present. -/
def parseExpPart : Str → Str × Str
  | [] => ([], [])
  | e :: rest =>
    if e = 'e' ∨ e = 'E' then
      match rest with
      | [] => ([], [e])
      | sign :: rest2 =>
        if sign = '+' ∨ sign = '-' then
          let ds := rest2.takeWhile Char.isDigit
          if ds = [] then ([], e :: sign :: rest2)
          else (e :: sign :: ds, rest2.dropWhile Char.isDigit)
        else
          let ds := rest.takeWhile Char.isDigit
          if ds = [] then ([], e :: rest)
          else (e :: ds, rest.dropWhile Char.isDigit)
    else ([], e :: rest)

/-- JSON number parsing per `NUMBER_RE`: an integer when neither fraction
nor exponent matched, otherwise a float carried as its literal. -/
def parseNumber (s : Str) : Option (JVal × Str) :=
  let negs1 : Bool × Str := match s with | '-' :: t => (true, t) | t => (false, t)
  match parseIntPart negs1.2 with
  | none => none
  | some (ip, r1) =>
    let fp := parseFracPart r1
    let ep := parseExpPart fp.2
    if fp.1 = [] ∧ ep.1 = [] then
      let n : Int := Int.ofNat (digitsToNat ip)
      some (JVal.jint (if negs1.1 then -n else n), ep.2)
    else
      some (JVal.jfloat ((if negs1.1 then ['-'] else []) ++ ip ++ fp.1 ++ ep.1), ep.2)

/-- Python-dict insertion used while building a JSON object: an existing
key keeps its position and takes the new value, a new key is appended. -/
def dictInsert (kvs : List (Str × JVal)) (k : Str) (v : JVal) : List (Str × JVal) :=
  if kvs.any (fun p => p.1 == k) then
    kvs.map (fun p => if p.1 = k then (p.1, v) else p)
  else kvs ++ [(k, v)]

mutual
/-- The stdlib scanner `_scan_once`: dispatch on the first character.
Dispatch order matches `json.scanner.py_make_scanner`: string, object,
array, `null`, `true`, `false`, number, then the `NaN` / `Infinity` /
`-Infinity` constants. -/
def parseVal : Nat → Str → Option (JVal × Str)
  | 0, _ => none
  | fuel + 1, s =>
    match s with
    | [] => none
    | c :: rest =>
      if c = '"' then
        (parseStringBody (rest.length + 1) rest).map (fun p => (JVal.jstr p.1, p.2))
      else if c = '\x7b' then
        let s1 := rest.dropWhile isJsonWS
        match s1 with
        | '\x7d' :: r => some (JVal.jobj [], r)
        | '"' :: r => parseObjItems fuel ('"' :: r) []
        | _ => none
      else if c = '[' then
        let s1 := rest.dropWhile isJsonWS
        match s1 with
        | ']' :: r => some (JVal.jarr [], r)
        | _ => (parseArrItems fuel s1 []).map (fun p => (JVal.jarr p.1, p.2))
      else if "null".toList.isPrefixOf s then some (JVal.null, s.drop 4)
      else if "true".toList.isPrefixOf s then some (JVal.jbool true, s.drop 4)
      else if "false".toList.isPrefixOf s then some (JVal.jbool false, s.drop 5)
      else
        match parseNumber s with
        | some p => some p
        | none =>
          if "NaN".toList.isPrefixOf s then some (JVal.jfloat "NaN".toList, s.drop 3)
          else if "Infinity".toList.isPrefixOf s then
            some (JVal.jfloat "Infinity".toList, s.drop 8)
          else if "-Infinity".toList.isPrefixOf s then
            some (JVal.jfloat "-Infinity".toList, s.drop 9)
          else none

/-- `json.decoder.JSONArray` element loop: value, then `]` to finish or
`,` plus whitespace and the next value. -/
def parseArrItems : Nat → Str → List JVal → Option (List JVal × Str)
  | 0, _, _ => none
  | fuel + 1, s, acc =>
    match parseVal fuel s with
    | none => none
    | some (v, r) =>
      match r.dropWhile isJsonWS with
      | ']' :: r2 => some (acc ++ [v], r2)
      | ',' :: r2 => parseArrItems fuel (r2.dropWhile isJsonWS) (acc ++ [v])
      | _ => none

/-- `json.decoder.JSONObject` member loop: `"key"`, `:`, value, then `}`
to finish or `,` plus whitespace and the next `"key"`. -/
def parseObjItems : Nat → Str → List (Str × JVal) → Option (JVal × Str)
  | 0, _, _ => none
  | fuel + 1, s, acc =>
    match s with
    | '"' :: r =>
      match parseStringBody (r.length + 1) r with
      | none => none
      | some (k, r1) =>
        match r1.dropWhile isJsonWS with
        | ':' :: r3 =>
          match parseVal fuel (r3.dropWhile isJsonWS) with
          | none => none
          | some (v, r4) =>
            let acc2 := dictInsert acc k v
            match r4.dropWhile isJsonWS with
            | '\x7d' :: r6 => some (JVal.jobj acc2, r6)
            | ',' :: r6 => parseObjItems fuel (r6.dropWhile isJsonWS) acc2
            | _ => none
        | _ => none
    | _ => none
end

/-- `JSONDecoder.raw_decode` at a position: parse one JSON document
starting at the head of `s` (no leading-whitespace skipping, exactly as
`raw_decode`), returning the value and the remaining text.  The fuel
`2 * length + 2` dominates every possible chain of scanner steps. -/
def raw_decode (s : Str) : Option (JVal × Str) :=
  parseVal (2 * s.length + 2) s

/-- `json.loads`: tolerate json whitespace around a single document and
require the whole input to be consumed. -/
def json_loads (s : Str) : Option JVal :=
  match raw_decode (s.dropWhile isJsonWS) with
  | some (v, rest) => if rest.dropWhile isJsonWS = [] then some v else none
  | none => none

-- ## Records and the Record Extractor

/-- Per-entry metadata attached to every record (`main.py` lines 203-206);
`session_id` is the `f.sid` query parameter extracted by the boundary
collaborator (urllib). -/
structure Metadata where
  entry_index : Nat
  session_id : Option Str

/-- A recovered chat record (the dict built at `main.py` lines 93-101).
`date` is the datetime in epoch microseconds (see header); `id_a`/`id_b`
carry the values at indices 5/6 when present (the source stores their
`str()` rendering, which plays no further role in the engine). -/
structure Record where
  date : Int
  prompt : Str
  response : Option Str
  metadata : Metadata
  id_a : Option JVal
  id_b : Option JVal

/-- One captured network exchange, at the Transaction Decoder boundary:
`body` is the transport-decoded response text (`decode_har_entry_content`
result; `none` when absent or undecodable). -/
structure Transaction where
  mimeType : Str
  body : Option Str
  sessionHint : Option Str

/-- `extract_timestamp` (`main.py` lines 40-48): first integer above
`1.6e15` is microseconds, first above `1.6e12` is milliseconds, in epoch
microseconds (division by 1e6 resp. 1e3 into seconds is the identity
resp. `* 1000` on the microsecond count).  Python `bool`s are `int`
instances but are `0`/`1`, below both thresholds, so they fall through
exactly like the model's non-`jint` case. -/
def extract_timestamp : List JVal → Option Int
  | [] => none
  | JVal.jint n :: rest =>
      if n > 1600000000000000 then some n
      else if n > 1600000000000 then some (n * 1000)
      else extract_timestamp rest
  | _ :: rest => extract_timestamp rest

/-- The per-element test of `extract_prompt` (`main.py` lines 53-55): a
list of length at least 3 whose index 2 equals `"Prompted"` and whose
index 0 is a string yields that string. -/
def promptShaped : JVal → Option Str
  | JVal.jarr (a :: _ :: c :: _) =>
      match c, a with
      | JVal.jstr m, JVal.jstr s => if m = "Prompted".toList then some s else none
      | _, _ => none
  | _ => none

/-- `extract_prompt` (`main.py` lines 50-56): first qualifying element
wins; an empty string at index 0 qualifies (`isinstance(item[0], str)`). -/
def extract_prompt (l : List JVal) : Option Str :=
  l.findSome? promptShaped

/-- The per-element test of `extract_response` (`main.py` lines 65-78):
three nested list levels, then a string containing `<` at index 1. -/
def responseCand : JVal → Option Str
  | JVal.jarr (JVal.jarr (JVal.jarr n2 :: _) :: _) =>
      match n2 with
      | _ :: JVal.jstr s :: _ => if s.contains '<' then some s else none
      | _ => none
  | _ => none

/-- `extract_response` (`main.py` lines 58-79): scan backwards, first
structural match wins. -/
def extract_response (l : List JVal) : Option Str :=
  l.reverse.findSome? responseCand

/-- The record dict built at `main.py` lines 93-101 from a matched array:
prompt stripped, response rendered by the external `md` and stripped
(`if response_html` truthiness: the empty string yields `None`), ids from
slots 5 and 6 when present. -/
def mkRecord (md : Str → Str) (meta : Metadata) (l : List JVal) (ts : Int)
    (p : Str) : Record :=
  { date := ts
    prompt := pyStrip p
    response :=
      match extract_response l with
      | some h => if h = [] then none else some (pyStrip (md h))
      | none => none
    metadata := meta
    id_a := l[5]?
    id_b := l[6]? }

/-- The Deduplicator (`main.py` lines 103-111): append unless a record
with the same date and prompt is already present. -/
def dedupAppend (recs : List Record) (r : Record) : List Record :=
  if recs.any (fun x => x.date == r.date && x.prompt == r.prompt) then recs
  else recs ++ [r]

mutual
/-- `process_inner_payload` (`main.py` lines 81-118).  Non-lists return
unchanged.  For a list, `if prompt:` is Python truthiness: `None` or the
empty string fall through to the recursion over the elements; a non-empty
prompt commits this node (the trailing `return` suppresses recursion) and
appends a record exactly when a timestamp was found (`if timestamp:` is
always true for a datetime). -/
def process_inner_payload (md : Str → Str) (meta : Metadata)
    (recs : List Record) : JVal → List Record
  | JVal.jarr l =>
      match extract_prompt l with
      | some p =>
          if p = [] then process_inner_list md meta recs l
          else
            match extract_timestamp l with
            | some ts => dedupAppend recs (mkRecord md meta l ts p)
            | none => recs
      | none => process_inner_list md meta recs l
  | _ => recs

/-- The recursion `for item in payload_json: process_inner_payload(item, …)`
threading the shared accumulator left to right. -/
def process_inner_list (md : Str → Str) (meta : Metadata)
    (recs : List Record) : List JVal → List Record
  | [] => recs
  | x :: xs => process_inner_list md meta (process_inner_payload md meta recs x) xs
end

-- ## The Payload Scanner

/-- The shape test of `scan_for_nested_data` (`main.py` line 125):
`item.strip().startswith('[[') and item.strip().endswith(']')`. -/
def looksNested (s : Str) : Bool :=
  ['[', '['].isPrefixOf (pyStrip s) && (pyStrip s).getLast? == some ']'

mutual
/-- `scan_for_nested_data` (`main.py` lines 120-135): recurse through
lists and dict values; a string element of a list that looks like a
stringified array is `json.loads`-ed and, on success, handed to
`process_inner_payload` (not re-scanned); parse failures are skipped. -/
def scan_for_nested_data (md : Str → Str) (meta : Metadata)
    (recs : List Record) : JVal → List Record
  | JVal.jarr l => scanList md meta recs l
  | JVal.jobj m => scanObj md meta recs m
  | _ => recs

/-- The `for item in data:` loop of `scan_for_nested_data` over a list. -/
def scanList (md : Str → Str) (meta : Metadata)
    (recs : List Record) : List JVal → List Record
  | [] => recs
  | JVal.jstr s :: rest =>
      scanList md meta
        (if looksNested s then
          match json_loads s with
          | some v => process_inner_payload md meta recs v
          | none => recs
        else recs) rest
  | x :: rest => scanList md meta (scan_for_nested_data md meta recs x) rest

/-- The `for value in data.values():` loop of `scan_for_nested_data`. -/
def scanObj (md : Str → Str) (meta : Metadata)
    (recs : List Record) : List (Str × JVal) → List Record
  | [] => recs
  | (_, v) :: rest => scanObj md meta (scan_for_nested_data md meta recs v) rest
end

-- ## The HTML entry point

/-- The search `re.search(r'data\s*:\s*(\[.*)', text, re.DOTALL)` tried at
one starting position: literal `data`, optional whitespace, `:`, optional
whitespace, then a `[`; the DOTALL-greedy group is the `[` with the whole
remaining text. -/
def dataArrayAt : Str → Option Str
  | 'd' :: 'a' :: 't' :: 'a' :: rest =>
      match rest.dropWhile isPySpace with
      | ':' :: r2 =>
          match r2.dropWhile isPySpace with
          | '[' :: r3 => some ('[' :: r3)
          | _ => none
      | _ => none
  | _ => none

/-- `re.search` semantics: first matching start position, left to right. -/
def findDataArray : Str → Option Str
  | [] => none
  | c :: rest =>
      match dataArrayAt (c :: rest) with
      | some r => some r
      | none => findDataArray rest

/-- The per-script body of `extract_json_from_html` (`main.py` lines
141-156): scripts whose text contains the `AF_initDataCallback` marker
(`if script.string and …`: the empty string is falsy) have their `data:`
array located, `raw_decode`-d, and handed directly to
`process_inner_payload` (the HTML data is not double-encoded). -/
def processScript (md : Str → Str) (meta : Metadata)
    (recs : List Record) (sc : Str) : List Record :=
  if sc ≠ [] ∧ strIn "AF_initDataCallback".toList sc then
    match findDataArray sc with
    | some cand =>
        match raw_decode cand with
        | some (v, _) => process_inner_payload md meta recs v
        | none => recs
    | none => recs
  else recs

/-- `extract_json_from_html` (`main.py` lines 137-158), with
BeautifulSoup's script-text extraction as the parameter `scripts`. -/
def extract_json_from_html (md : Str → Str) (scripts : Str → List Str)
    (meta : Metadata) (recs : List Record) (html : Str) : List Record :=
  (scripts html).foldl (processScript md meta) recs

-- ## The driving loop over one transaction and the whole file

/-- The multi-document decode loop of `parse_har_file` (`main.py` lines
215-226): skip `str.isspace` characters, `raw_decode` one document, scan
it, continue after it; stop at end of text or on the first parse failure.
Fuel `length + 1` dominates the iteration count since every successful
decode consumes at least one character. -/
def decodeLoop (md : Str → Str) (meta : Metadata) :
    Nat → Str → List Record → List Record
  | 0, _, recs => recs
  | fuel + 1, s, recs =>
      let s1 := s.dropWhile isPySpace
      if s1 = [] then recs
      else
        match raw_decode s1 with
        | some (v, rest) =>
            decodeLoop md meta fuel rest (scan_for_nested_data md meta recs v)
        | none => recs

/-- Processing of one HAR entry (`main.py` lines 186-238): skip empty
bodies, route JSON/javascript bodies through the Framing Stripper and the
decode loop, route HTML bodies through the script extractor. -/
def processEntry (md : Str → Str) (scripts : Str → List Str) (i : Nat)
    (tx : Transaction) (recs : List Record) : List Record :=
  match tx.body with
  | none => recs
  | some t =>
    if t = [] then recs
    else
      let meta : Metadata := ⟨i, tx.sessionHint⟩
      if strIn "application/json".toList tx.mimeType
          || strIn "text/javascript".toList tx.mimeType then
        let stripped := stripJsonFraming t
        if stripped = [] then recs
        else decodeLoop md meta (stripped.length + 1) stripped recs
      else if strIn "text/html".toList tx.mimeType then
        extract_json_from_html md scripts meta recs t
      else recs

/-- The `for i, entry in enumerate(entries):` loop. -/
def processEntries (md : Str → Str) (scripts : Str → List Str) :
    Nat → List Transaction → List Record → List Record
  | _, [], recs => recs
  | i, tx :: rest, recs =>
      processEntries md scripts (i + 1) rest (processEntry md scripts i tx recs)

/-- Stable insertion by date, the building block of the model of Python's
stable `list.sort(key=lambda x: x['date'])`: any stable sort by the same
key produces the same output list, and under the fixed-offset timezone
the ISO `date` strings order exactly as the microsecond integers. -/
def insertByDate (a : Record) : List Record → List Record
  | [] => [a]
  | b :: l => if a.date ≤ b.date then a :: b :: l else b :: insertByDate a l

/-- The stable sort by `date`. -/
def sortByDate : List Record → List Record
  | [] => []
  | a :: l => insertByDate a (sortByDate l)

/-- `parse_har_file` (`main.py` lines 160-262) over the entry list (file
loading and the statistics printing are the excluded collaborators):
process every entry in order, then sort the accumulated records by date. -/
def parse_har_file (md : Str → Str) (scripts : Str → List Str)
    (txs : List Transaction) : List Record :=
  sortByDate (processEntries md scripts 0 txs [])

-- ## The Session Clusterer

/-- The session gap threshold, two hours, in epoch microseconds (the
source compares `ts - last_ts > 7200` in float seconds; both sides scale
by `1e6`). -/
def TIME_THRESHOLD_US : Int := 7200 * 1000000

/-- The loop of `analyze_sessions` (`main.py` lines 273-281): `last_ts`
starts at `0`, and a record opens a new session when `last_ts == 0` or
the gap exceeds the threshold. -/
def analyzeGo : List (List Record) → List Record → Int → List Record →
    List (List Record)
  | sessions, cur, _, [] => if cur.isEmpty then sessions else sessions ++ [cur]
  | sessions, cur, lastTs, r :: rs =>
      if lastTs = 0 ∨ r.date - lastTs > TIME_THRESHOLD_US then
        analyzeGo (if cur.isEmpty then sessions else sessions ++ [cur]) [r] r.date rs
      else analyzeGo sessions (cur ++ [r]) r.date rs

/-- `analyze_sessions` (`main.py` lines 264-283): sort by date, then the
clustering loop. -/
def analyze_sessions (records : List Record) : List (List Record) :=
  analyzeGo [] [] 0 (sortByDate records)

/-- Modelled from the spec (§4.6 / claim C6 wording), for comparison with
`analyze_sessions`: walking the sorted records, a record starts a new
session exactly when its gap to the previous record strictly exceeds the
threshold. -/
def sessionsSpecGo : List Record → Int → List Record → List (List Record)
  | cur, _, [] => [cur]
  | cur, lastTs, r :: rs =>
      if r.date - lastTs > TIME_THRESHOLD_US then cur :: sessionsSpecGo [r] r.date rs
      else sessionsSpecGo (cur ++ [r]) r.date rs

/-- Spec-side clustering of an already-sorted record list. -/
def sessionsSpec : List Record → List (List Record)
  | [] => []
  | r :: rs => sessionsSpecGo [r] r.date rs

-- ## Facts about `pyStrip` and the Framing Stripper (claims C7, C8)

theorem dropWhile_getLast? {p : Char → Bool} :
    ∀ l : Str, l.dropWhile p ≠ [] → (l.dropWhile p).getLast? = l.getLast? := by
  intro l
  induction l with
  | nil => intro h; simp at h
  | cons a l ih =>
      intro h
      rw [List.dropWhile_cons]
      by_cases ha : p a = true
      · rw [List.dropWhile_cons, if_pos ha] at h
        have hl : l ≠ [] := by
          intro he; subst he; simp at h
        rw [if_pos ha, ih h]
        cases l with
        | nil => exact absurd rfl hl
        | cons b l' => rw [List.getLast?_cons_cons]
      · rw [if_neg ha]

theorem pyStrip_getLast_not_space (s : Str) (y : Char)
    (h : (pyStrip s).getLast? = some y) : isPySpace y = false := by
  unfold pyStrip at h
  rw [List.getLast?_reverse] at h
  cases he : ((s.dropWhile isPySpace).reverse).dropWhile isPySpace with
  | nil => rw [he] at h; simp at h
  | cons z zs =>
      rw [he] at h
      simp at h
      subst h
      exact dropWhile_head_false _ _ _ he

theorem pyStrip_head_not_space (s : Str) (y : Char) (t : Str)
    (h : pyStrip s = y :: t) : isPySpace y = false := by
  have hne : ((s.dropWhile isPySpace).reverse).dropWhile isPySpace ≠ [] := by
    intro he
    rw [pyStrip, he] at h
    simp at h
  have h1 : (pyStrip s).head? = some y := by rw [h]; rfl
  rw [pyStrip, List.head?_reverse, dropWhile_getLast? _ hne,
    List.getLast?_reverse] at h1
  cases hd : s.dropWhile isPySpace with
  | nil => rw [hd] at h1; simp at h1
  | cons z zs =>
      rw [hd] at h1
      simp at h1
      subst h1
      exact dropWhile_head_false _ _ _ hd

theorem pyStrip_eq_self (l : Str)
    (hh : ∀ y, l.head? = some y → isPySpace y = false)
    (hl : ∀ y, l.getLast? = some y → isPySpace y = false) : pyStrip l = l := by
  cases l with
  | nil => rfl
  | cons a t =>
      have ha : isPySpace a = false := hh a rfl
      unfold pyStrip
      rw [dropWhile_of_head_false a t ha]
      cases hrev : (a :: t).reverse with
      | nil => simp at hrev
      | cons z zs =>
          have hz : isPySpace z = false := by
            apply hl z
            rw [← List.head?_reverse, hrev]
            rfl
          calc ((z :: zs).dropWhile isPySpace).reverse
              = (z :: zs).reverse := by rw [dropWhile_of_head_false z zs hz]
            _ = (a :: t).reverse.reverse := by rw [hrev]
            _ = a :: t := List.reverse_reverse _

theorem pyStrip_idem (s : Str) : pyStrip (pyStrip s) = pyStrip s :=
  pyStrip_eq_self (pyStrip s)
    (fun y hy => by
      cases hp : pyStrip s with
      | nil => rw [hp] at hy; simp at hy
      | cons a t =>
          rw [hp] at hy
          simp at hy
          subst hy
          exact pyStrip_head_not_space s a t hp)
    (fun y hy => pyStrip_getLast_not_space s y hy)

/-- With no anti-hijack prefix, the stripper is trimming plus the length
marker cut. -/
theorem stripJsonFraming_of_no_literal (s : Str)
    (h : antiHijack.isPrefixOf s = false) :
    stripJsonFraming s =
      (match dropLengthMarker (pyStrip s) with
       | some r => r
       | none => pyStrip s) := by
  simp [stripJsonFraming, h]

/-- Claim C7 (corrected).  The positive half: whenever the trimmed text
decomposes as a nonempty digit run, then (possibly empty) whitespace, then
one of `[`, `"`, `{`, the stripper cuts to the opening character — the
source regex `\s*` allows the empty whitespace run, and `"` also opens.
The negative half: with no such decomposition the stripper returns the
whitespace-trimmed text (not the original text: surrounding whitespace is
always removed). -/
theorem framing_stripper_marker_characterization (s : Str)
    (hpre : antiHijack.isPrefixOf s = false) :
    (∀ d w c r, pyStrip s = d ++ (w ++ c :: r) → d ≠ [] →
      (∀ x ∈ d, x.isDigit = true) → (∀ x ∈ w, isPySpace x = true) →
      jsonOpenChar c = true → stripJsonFraming s = c :: r)
    ∧ ((∀ d w c r, pyStrip s = d ++ (w ++ c :: r) → d ≠ [] →
        (∀ x ∈ d, x.isDigit = true) → (∀ x ∈ w, isPySpace x = true) →
        jsonOpenChar c = true → False) → stripJsonFraming s = pyStrip s) := by
  constructor
  · intro d w c r hdec hd hdd hw hc
    rw [stripJsonFraming_of_no_literal s hpre, hdec,
      dropLengthMarker_of_decomp d w r c hd hdd hw hc]
  · intro hno
    rw [stripJsonFraming_of_no_literal s hpre]
    cases hm : dropLengthMarker (pyStrip s) with
    | none => rfl
    | some res =>
        obtain ⟨d, w, c, r, hdec, hd, hdd, hw, hc, -⟩ :=
          dropLengthMarker_decomp (pyStrip s) res hm
        exact absurd (hno d w c r hdec hd hdd hw hc) (fun f => f)

/-- Witness for the corrected C7: `"23\n[x"` decomposes as digits `23`,
whitespace `\n`, opener `[`, and the stripper returns `[x`; and `"9a"`
admits no decomposition, so only surrounding whitespace is trimmed. -/
theorem framing_marker_witness :
    stripJsonFraming "23\n[x".toList = "[x".toList ∧
      stripJsonFraming "  ".toList = pyStrip "  ".toList := by
  constructor
  · exact (framing_stripper_marker_characterization "23\n[x".toList (by decide)).1
      "23".toList "\n".toList '[' "x".toList (by decide) (by decide)
      (by decide) (by decide) (by decide)
  · refine (framing_stripper_marker_characterization "  ".toList (by decide)).2 ?_
    intro d w c r hdec _ _ _ _
    have h0 : pyStrip "  ".toList = [] := by decide
    rw [h0] at hdec
    simp at hdec

/-- Counterexample to C7 as stated: in `12[1]` the leading digit run abuts
the bracket with no whitespace in between and there is no anti-hijacking
prefix, yet the stripper does not return the text unchanged — it cuts to
`[1]`. -/
theorem framing_stripper_no_ws_counterexample :
    antiHijack.isPrefixOf "12[1]".toList = false ∧
      stripJsonFraming "12[1]".toList = "[1]".toList ∧
      stripJsonFraming "12[1]".toList ≠ "12[1]".toList := by
  refine ⟨by decide, rfl, by decide⟩

/-- Claim C8 (corrected): the stripper is idempotent on every input whose
once-stripped result does not itself start with the anti-hijacking
literal `)]}'`. -/
theorem stripJsonFraming_idem_of_no_literal (s : Str)
    (h : antiHijack.isPrefixOf (stripJsonFraming s) = false) :
    stripJsonFraming (stripJsonFraming s) = stripJsonFraming s := by
  rw [stripJsonFraming_of_no_literal _ h]
  unfold stripJsonFraming
  cases hm : dropLengthMarker (pyStrip (if antiHijack.isPrefixOf s then s.drop 4 else s)) with
  | none =>
      simp only [hm]
      have hself := pyStrip_idem (if antiHijack.isPrefixOf s then s.drop 4 else s)
      rw [hself, hm]
  | some res =>
      simp only [hm]
      obtain ⟨d, w, c, r, hdec, hd, hdd, hw, hc, hres⟩ :=
        dropLengthMarker_decomp _ res hm
      subst hres
      -- `c :: r` is a suffix of the trimmed text sharing its last element,
      -- and starts with a non-space opener, so trimming it is the identity.
      have hstrip : pyStrip (c :: r) = c :: r := by
        apply pyStrip_eq_self
        · intro y hy
          simp at hy
          subst hy
          exact jsonOpenChar_not_space hc
        · intro y hy
          apply pyStrip_getLast_not_space (if antiHijack.isPrefixOf s then s.drop 4 else s) y
          rw [hdec]
          rw [List.getLast?_append_of_ne_nil, List.getLast?_append_of_ne_nil]
          · exact hy
          · simp
          · simp
      rw [hstrip]
      have htw : (c :: r).takeWhile Char.isDigit = [] := by
        rw [List.takeWhile_cons, if_neg (by simp [jsonOpenChar_not_digit hc])]
      have hnone : dropLengthMarker (c :: r) = none := by
        simp [dropLengthMarker, htw]
      rw [hnone]

/-- Witness for the corrected C8 at the concrete input `12[1]`. -/
theorem strip_idem_witness :
    stripJsonFraming (stripJsonFraming "12[1]".toList) =
      stripJsonFraming "12[1]".toList :=
  stripJsonFraming_idem_of_no_literal "12[1]".toList (by decide)

/-- Counterexample to C8 as stated: on `)]}')]}'[` one application leaves
`)]}'[` (only the first anti-hijack prefix is dropped), while a second
application drops the second prefix, so strip∘strip differs from strip. -/
theorem strip_not_idempotent_counterexample :
    stripJsonFraming (stripJsonFraming ")]\x7d\x27)]\x7d\x27[".toList) ≠
      stripJsonFraming ")]\x7d\x27)]\x7d\x27[".toList := by
  decide

-- ## The record signature and timestamp extraction (claims C3, C4)

theorem extract_prompt_first :
    ∀ (pre : List JVal) (e : JVal) (suf : List JVal) (s : Str),
      (∀ x ∈ pre, promptShaped x = none) → promptShaped e = some s →
      extract_prompt (pre ++ e :: suf) = some s := by
  intro pre
  induction pre with
  | nil =>
      intro e suf s _ he
      simp [extract_prompt, List.findSome?_cons, he]
  | cons a pre ih =>
      intro e suf s hpre he
      have ha : promptShaped a = none := hpre a (by simp)
      have := ih e suf s (fun x hx => hpre x (by simp [hx])) he
      simpa [extract_prompt, List.findSome?_cons, ha] using this

theorem extract_timestamp_skip :
    ∀ (pre rest : List JVal),
      (∀ x ∈ pre, ∀ k : Int, x = JVal.jint k → k ≤ 1600000000000) →
      extract_timestamp (pre ++ rest) = extract_timestamp rest := by
  intro pre
  induction pre with
  | nil => intro rest _; rfl
  | cons a pre ih =>
      intro rest h
      have htail := ih rest (fun x hx k hk => h x (by simp [hx]) k hk)
      cases a with
      | jint n =>
          have hn : n ≤ 1600000000000 := h (JVal.jint n) (by simp) n rfl
          have h1 : ¬n > 1600000000000000 := by omega
          have h2 : ¬n > 1600000000000 := by omega
          simpa [extract_timestamp, h1, h2] using htail
      | null => simpa [extract_timestamp] using htail
      | jbool b => simpa [extract_timestamp] using htail
      | jfloat lit => simpa [extract_timestamp] using htail
      | jstr s => simpa [extract_timestamp] using htail
      | jarr l => simpa [extract_timestamp] using htail
      | jobj m => simpa [extract_timestamp] using htail

/-- Claim C3 (corrected).  The Record Extractor commits to the FIRST
element shaped as an array of length at least 3 with `"Prompted"` at
index 2 and a string at index 0 — an empty string qualifies for the shape
(`isinstance(item[0], str)`), and the node is then classified as a record
only if that first string is non-empty (`if prompt:` truthiness);
otherwise the extractor falls through to the per-element recursion.
Later qualifying elements are never consulted. -/
theorem record_signature_first_match (md : Str → Str) (meta : Metadata)
    (recs : List Record) (pre : List JVal) (e : JVal) (suf : List JVal) (s : Str)
    (hpre : ∀ x ∈ pre, promptShaped x = none) (he : promptShaped e = some s) :
    extract_prompt (pre ++ e :: suf) = some s
    ∧ (s ≠ [] → process_inner_payload md meta recs (JVal.jarr (pre ++ e :: suf)) =
        (match extract_timestamp (pre ++ e :: suf) with
         | some ts => dedupAppend recs (mkRecord md meta (pre ++ e :: suf) ts s)
         | none => recs))
    ∧ (s = [] → process_inner_payload md meta recs (JVal.jarr (pre ++ e :: suf)) =
        process_inner_list md meta recs (pre ++ e :: suf)) := by
  have hp := extract_prompt_first pre e suf s hpre he
  refine ⟨hp, ?_, ?_⟩
  · intro hs
    simp [process_inner_payload, hp, hs]
  · intro hs
    subst hs
    simp [process_inner_payload, hp]

/-- A qualifying-shaped element with empty prompt slot, first. -/
def shapedEmpty : JVal :=
  JVal.jarr [JVal.jstr [], JVal.jbool true, JVal.jstr "Prompted".toList]

/-- A qualifying-shaped element with prompt `"Hi"`. -/
def shapedHi : JVal :=
  JVal.jarr [JVal.jstr "Hi".toList, JVal.jbool true, JVal.jstr "Prompted".toList]

/-- The scenario of claim C3: an empty-prompt qualifying shape before a
non-empty one, with a valid microsecond timestamp present. -/
def exC3 : List JVal := [shapedEmpty, shapedHi, JVal.jint 1700000000000000]

/-- Counterexample to C3 as stated: `exC3` contains (at a later position)
a qualifying element with non-empty index-0 string, so per the claim the
array is a chat-turn record; but the code extracts the FIRST shaped
element's empty string, `if prompt:` is falsy, and no record at all is
produced. -/
theorem record_signature_counterexample :
    (∃ e ∈ exC3, ∃ s, promptShaped e = some s ∧ s ≠ []) ∧
      extract_timestamp exC3 = some 1700000000000000 ∧
      process_inner_payload (fun s => s) ⟨0, none⟩ [] (JVal.jarr exC3) = [] :=
  ⟨⟨shapedHi, by simp [exC3], "Hi".toList, rfl, by decide⟩, rfl, rfl⟩

/-- Witness for the corrected C3: with the non-empty shape first, the
array is classified and yields exactly its record. -/
theorem record_signature_witness :
    extract_prompt [shapedHi, JVal.jint 1700000000000000] = some "Hi".toList
    ∧ ("Hi".toList ≠ ([] : Str) →
        process_inner_payload (fun s => s) ⟨0, none⟩ []
            (JVal.jarr [shapedHi, JVal.jint 1700000000000000]) =
          (match extract_timestamp [shapedHi, JVal.jint 1700000000000000] with
           | some ts => dedupAppend []
               (mkRecord (fun s => s) ⟨0, none⟩
                 [shapedHi, JVal.jint 1700000000000000] ts "Hi".toList)
           | none => []))
    ∧ ("Hi".toList = ([] : Str) →
        process_inner_payload (fun s => s) ⟨0, none⟩ []
            (JVal.jarr [shapedHi, JVal.jint 1700000000000000]) =
          process_inner_list (fun s => s) ⟨0, none⟩ []
            [shapedHi, JVal.jint 1700000000000000]) :=
  record_signature_first_match (fun s => s) ⟨0, none⟩ [] []
    shapedHi [JVal.jint 1700000000000000] "Hi".toList
    (fun x hx => by simp at hx) rfl

/-- Claim C4 (confirmed).  For a signature-matching array whose first
timestamp-classified integer (the first one above `1.6e12`) is an `m`
above `1.6e15`, the extractor produces the record whose `date` is the
datetime `m / 1_000_000` seconds — i.e. exactly `m` epoch microseconds in
the model's representation — and whose prompt is the matched string with
surrounding whitespace stripped. -/
theorem microsecond_timestamp_extraction (md : Str → Str) (meta : Metadata)
    (recs : List Record) (pre suf : List JVal) (m : Int) (s : Str)
    (hm : m > 1600000000000000)
    (hpre : ∀ x ∈ pre, ∀ k : Int, x = JVal.jint k → k ≤ 1600000000000)
    (hp : extract_prompt (pre ++ JVal.jint m :: suf) = some s) (hs : s ≠ []) :
    extract_timestamp (pre ++ JVal.jint m :: suf) = some m
    ∧ process_inner_payload md meta recs (JVal.jarr (pre ++ JVal.jint m :: suf)) =
        dedupAppend recs (mkRecord md meta (pre ++ JVal.jint m :: suf) m s)
    ∧ (mkRecord md meta (pre ++ JVal.jint m :: suf) m s).date = m
    ∧ (mkRecord md meta (pre ++ JVal.jint m :: suf) m s).prompt = pyStrip s := by
  have ht : extract_timestamp (pre ++ JVal.jint m :: suf) = some m := by
    rw [extract_timestamp_skip pre _ hpre]
    simp [extract_timestamp, hm]
  refine ⟨ht, ?_, rfl, rfl⟩
  simp [process_inner_payload, hp, hs, ht]

/-- Witness for C4: a string and a small integer precede the microsecond
timestamp `1700000000000000`; the produced record carries it as `date`. -/
theorem microsecond_extraction_witness :
    extract_timestamp
        ([JVal.jstr "x".toList, JVal.jint 7] ++ JVal.jint 1700000000000000 :: [shapedHi]) =
      some 1700000000000000
    ∧ process_inner_payload (fun s => s) ⟨0, none⟩ []
        (JVal.jarr ([JVal.jstr "x".toList, JVal.jint 7] ++
          JVal.jint 1700000000000000 :: [shapedHi])) =
      dedupAppend []
        (mkRecord (fun s => s) ⟨0, none⟩
          ([JVal.jstr "x".toList, JVal.jint 7] ++ JVal.jint 1700000000000000 :: [shapedHi])
          1700000000000000 "Hi".toList)
    ∧ (mkRecord (fun s => s) ⟨0, none⟩
        ([JVal.jstr "x".toList, JVal.jint 7] ++ JVal.jint 1700000000000000 :: [shapedHi])
        1700000000000000 "Hi".toList).date = 1700000000000000
    ∧ (mkRecord (fun s => s) ⟨0, none⟩
        ([JVal.jstr "x".toList, JVal.jint 7] ++ JVal.jint 1700000000000000 :: [shapedHi])
        1700000000000000 "Hi".toList).prompt = pyStrip "Hi".toList :=
  microsecond_timestamp_extraction (fun s => s) ⟨0, none⟩ []
    [JVal.jstr "x".toList, JVal.jint 7] [shapedHi] 1700000000000000 "Hi".toList
    (by decide)
    (by
      intro x hx k hk
      simp at hx
      rcases hx with h | h <;> subst h
      · simp at hk
      · injection hk with h2
        omega)
    rfl (by decide)

-- ## The Payload Scanner on stringified fragments (claims C2, C10, C1)

/-- A stringified chat-turn fragment: qualifies for the `[[`…`]` shape and
parses to an array matching the record signature. -/
def fragC2 : Str := "[[\"Hi\", true, \"Prompted\"], 1700000000000000]".toList

/-- A stringified fragment whose decoded value contains `fragC2` itself as
a string element (one extra level of stringification). -/
def outerC2 : Str :=
  "[[\"[[\\\"Hi\\\", true, \\\"Prompted\\\"], 1700000000000000]\"]]".toList

/-- Claim C2 (corrected).  On a qualifying stringified fragment that
parses, the scanner hands the parsed value to the Record Extractor
(`process_inner_payload`) and then moves on to the remaining sequence
elements; it does NOT resume the stringified-fragment traversal inside
the parsed value — and the Record Extractor itself never parses strings,
so doubly-stringified fragments contribute nothing. -/
theorem nested_fragment_not_rescanned (md : Str → Str) (meta : Metadata)
    (recs : List Record) (s : Str) (v : JVal) (rest : List JVal)
    (hshape : looksNested s = true) (hparse : json_loads s = some v) :
    scan_for_nested_data md meta recs (JVal.jarr (JVal.jstr s :: rest)) =
      scanList md meta (process_inner_payload md meta recs v) rest
    ∧ ∀ (recs2 : List Record) (w : Str),
        process_inner_payload md meta recs2 (JVal.jstr w) = recs2 := by
  refine ⟨?_, fun _ _ => rfl⟩
  simp [scan_for_nested_data, scanList, hshape, hparse]

/-- Witness for the corrected C2 at the doubly-stringified `outerC2`. -/
theorem nested_fragment_witness :
    scan_for_nested_data (fun s => s) ⟨0, none⟩ [] (JVal.jarr [JVal.jstr outerC2]) =
      scanList (fun s => s) ⟨0, none⟩
        (process_inner_payload (fun s => s) ⟨0, none⟩ []
          (JVal.jarr [JVal.jarr [JVal.jstr fragC2]])) []
    ∧ ∀ (recs2 : List Record) (w : Str),
        process_inner_payload (fun s => s) ⟨0, none⟩ recs2 (JVal.jstr w) = recs2 :=
  nested_fragment_not_rescanned (fun s => s) ⟨0, none⟩ [] outerC2
    (JVal.jarr [JVal.jarr [JVal.jstr fragC2]]) [] rfl rfl

/-- Counterexample to C2 as stated: `outerC2` decodes to a value holding
`fragC2` as a string; `fragC2` qualifies and, as a direct sequence
element, yields one record — but scanned through `outerC2` it is never
parsed and the pipeline yields nothing, although the claim promises its
records are extracted. -/
theorem nested_fragment_counterexample :
    json_loads outerC2 = some (JVal.jarr [JVal.jarr [JVal.jstr fragC2]])
    ∧ looksNested fragC2 = true
    ∧ scan_for_nested_data (fun s => s) ⟨0, none⟩ [] (JVal.jarr [JVal.jstr fragC2]) =
        [⟨1700000000000000, "Hi".toList, none, ⟨0, none⟩, none, none⟩]
    ∧ scan_for_nested_data (fun s => s) ⟨0, none⟩ [] (JVal.jarr [JVal.jstr outerC2]) = [] :=
  ⟨rfl, rfl, rfl, rfl⟩

/-- Claim C10 (confirmed).  The scanner tests candidate stringified
fragments only as direct elements of a sequence: a bare string value is
inert, and a mapping all of whose values are strings contributes nothing,
whatever those strings contain. -/
theorem mapping_values_never_parsed (md : Str → Str) (meta : Metadata)
    (recs : List Record) :
    (∀ s, scan_for_nested_data md meta recs (JVal.jstr s) = recs)
    ∧ ∀ kvs : List (Str × JVal), (∀ p ∈ kvs, ∃ s, p.2 = JVal.jstr s) →
        scan_for_nested_data md meta recs (JVal.jobj kvs) = recs := by
  refine ⟨fun _ => rfl, ?_⟩
  intro kvs h
  induction kvs with
  | nil => rfl
  | cons p rest ih =>
      obtain ⟨k, v⟩ := p
      obtain ⟨s, hs⟩ := h (k, v) (by simp)
      simp only at hs
      subst hs
      have hrest := ih (fun q hq => h q (by simp [hq]))
      simpa [scan_for_nested_data, scanObj] using hrest

/-- Witness for C10: a mapping holding a qualifying stringified chat-turn
fragment as its sole value yields no records. -/
theorem mapping_value_witness :
    scan_for_nested_data (fun s => s) ⟨0, none⟩ []
        (JVal.jobj [("k".toList, JVal.jstr fragC2)]) = [] :=
  (mapping_values_never_parsed (fun s => s) ⟨0, none⟩ []).2
    [("k".toList, JVal.jstr fragC2)]
    (fun p hp => ⟨fragC2, by simp at hp; rw [hp]⟩)

-- ## End-to-end on the synthetic transaction (claim C1)

/-- The exact body of claim C1: `)]}'`, newline, `23`, newline, then a
top-level JSON array in which the chat-turn fragment appears as a DIRECT
nested array (not stringified). -/
def bodyC1 : Str :=
  ")]\x7d\x27\n23\n[[\"irrelevant\", [[\"Hello there\", true, \"Prompted\"], 1700000000000000]]]".toList

/-- The same body with the only change the counterexample forces: the
inner payload is stringified (double-encoded), as in real `batchexecute`
responses. -/
def bodyC1Stringified : Str :=
  ")]\x7d\x27\n23\n[[\"irrelevant\", \"[[\\\"Hello there\\\", true, \\\"Prompted\\\"], 1700000000000000]\"]]".toList

/-- Counterexample to C1 as stated: on the claimed body the framing strip
and the top-level parse succeed, but the scanner only hands STRINGIFIED
fragments to the Record Extractor; the direct nested array is never
examined and the pipeline yields zero records, not one. -/
theorem synthetic_transaction_counterexample :
    stripJsonFraming bodyC1 =
      "[[\"irrelevant\", [[\"Hello there\", true, \"Prompted\"], 1700000000000000]]]".toList
    ∧ parse_har_file (fun s => s) (fun _ => [])
        [⟨"application/json".toList, some bodyC1, none⟩] = [] :=
  ⟨rfl, rfl⟩

/-- Claim C1 (corrected): with the inner fragment stringified, the
pipeline yields exactly one record with prompt `Hello there` and date
`1700000000000000` epoch microseconds, i.e. epoch second `1700000000`. -/
theorem synthetic_transaction_pipeline :
    ∀ (md : Str → Str) (scripts : Str → List Str),
      parse_har_file md scripts [⟨"application/json".toList, some bodyC1Stringified, none⟩] =
        [⟨1700000000000000, "Hello there".toList, none, ⟨0, none⟩, none, none⟩]
      ∧ (1700000000000000 : Int) = 1700000000 * 1000000 :=
  fun _ _ => ⟨rfl, rfl⟩

-- ## The deduplication invariant (claim C5)

/-- No two records share their (date, prompt) identity. -/
def distinctPairs (recs : List Record) : Prop :=
  List.Pairwise (fun a b => ¬(a.date = b.date ∧ a.prompt = b.prompt)) recs

theorem dedupAppend_distinct (recs : List Record) (r : Record)
    (h : distinctPairs recs) : distinctPairs (dedupAppend recs r) := by
  unfold dedupAppend
  by_cases hany : recs.any (fun x => x.date == r.date && x.prompt == r.prompt) = true
  · rw [if_pos hany]; exact h
  · rw [if_neg hany]
    simp only [List.any_eq_true, Bool.and_eq_true, beq_iff_eq, not_exists, not_and] at hany
    rw [distinctPairs, List.pairwise_append]
    refine ⟨h, List.pairwise_singleton _ _, ?_⟩
    intro a ha b hb
    simp only [List.mem_singleton] at hb
    subst hb
    intro hab
    exact hany a ha hab.1 hab.2

mutual
theorem process_inner_payload_distinct (md : Str → Str) (meta : Metadata) :
    ∀ (v : JVal) (recs : List Record), distinctPairs recs →
      distinctPairs (process_inner_payload md meta recs v)
  | JVal.jarr l, recs, h => by
      show distinctPairs
        (match extract_prompt l with
         | some p =>
             if p = [] then process_inner_list md meta recs l
             else
               match extract_timestamp l with
               | some ts => dedupAppend recs (mkRecord md meta l ts p)
               | none => recs
         | none => process_inner_list md meta recs l)
      cases hp : extract_prompt l with
      | none => exact process_inner_list_distinct md meta l recs h
      | some p =>
          show distinctPairs
            (if p = [] then process_inner_list md meta recs l
             else
               match extract_timestamp l with
               | some ts => dedupAppend recs (mkRecord md meta l ts p)
               | none => recs)
          by_cases hpe : p = []
          · rw [if_pos hpe]
            exact process_inner_list_distinct md meta l recs h
          · rw [if_neg hpe]
            cases ht : extract_timestamp l with
            | some ts =>
                show distinctPairs (dedupAppend recs (mkRecord md meta l ts p))
                exact dedupAppend_distinct recs _ h
            | none => exact h
  | JVal.null, recs, h => h
  | JVal.jbool b, recs, h => h
  | JVal.jint n, recs, h => h
  | JVal.jfloat f, recs, h => h
  | JVal.jstr s, recs, h => h
  | JVal.jobj m, recs, h => h

theorem process_inner_list_distinct (md : Str → Str) (meta : Metadata) :
    ∀ (l : List JVal) (recs : List Record), distinctPairs recs →
      distinctPairs (process_inner_list md meta recs l)
  | [], _, h => h
  | x :: xs, recs, h =>
      process_inner_list_distinct md meta xs _
        (process_inner_payload_distinct md meta x recs h)
end

mutual
theorem scan_for_nested_data_distinct (md : Str → Str) (meta : Metadata) :
    ∀ (v : JVal) (recs : List Record), distinctPairs recs →
      distinctPairs (scan_for_nested_data md meta recs v)
  | JVal.jarr l, recs, h => scanList_distinct md meta l recs h
  | JVal.jobj m, recs, h => scanObj_distinct md meta m recs h
  | JVal.null, recs, h => h
  | JVal.jbool b, recs, h => h
  | JVal.jint n, recs, h => h
  | JVal.jfloat f, recs, h => h
  | JVal.jstr s, recs, h => h

theorem scanList_distinct (md : Str → Str) (meta : Metadata) :
    ∀ (l : List JVal) (recs : List Record), distinctPairs recs →
      distinctPairs (scanList md meta recs l)
  | [], _, h => h
  | JVal.jstr s :: rest, recs, h => by
      show distinctPairs (scanList md meta
        (if looksNested s then
          match json_loads s with
          | some v => process_inner_payload md meta recs v
          | none => recs
        else recs) rest)
      apply scanList_distinct md meta rest
      by_cases hlook : looksNested s = true
      · rw [if_pos hlook]
        cases hj : json_loads s with
        | some v => exact process_inner_payload_distinct md meta v recs h
        | none => exact h
      · rw [if_neg hlook]; exact h
  | JVal.null :: rest, recs, h =>
      scanList_distinct md meta rest _
        (scan_for_nested_data_distinct md meta JVal.null recs h)
  | JVal.jbool b :: rest, recs, h =>
      scanList_distinct md meta rest _
        (scan_for_nested_data_distinct md meta (JVal.jbool b) recs h)
  | JVal.jint n :: rest, recs, h =>
      scanList_distinct md meta rest _
        (scan_for_nested_data_distinct md meta (JVal.jint n) recs h)
  | JVal.jfloat f :: rest, recs, h =>
      scanList_distinct md meta rest _
        (scan_for_nested_data_distinct md meta (JVal.jfloat f) recs h)
  | JVal.jarr l :: rest, recs, h =>
      scanList_distinct md meta rest _
        (scan_for_nested_data_distinct md meta (JVal.jarr l) recs h)
  | JVal.jobj m :: rest, recs, h =>
      scanList_distinct md meta rest _
        (scan_for_nested_data_distinct md meta (JVal.jobj m) recs h)

theorem scanObj_distinct (md : Str → Str) (meta : Metadata) :
    ∀ (kvs : List (Str × JVal)) (recs : List Record), distinctPairs recs →
      distinctPairs (scanObj md meta recs kvs)
  | [], _, h => h
  | (_, v) :: rest, recs, h =>
      scanObj_distinct md meta rest _
        (scan_for_nested_data_distinct md meta v recs h)
end

theorem decodeLoop_distinct (md : Str → Str) (meta : Metadata) :
    ∀ (fuel : Nat) (s : Str) (recs : List Record), distinctPairs recs →
      distinctPairs (decodeLoop md meta fuel s recs)
  | 0, _, _, h => h
  | fuel + 1, s, recs, h => by
      simp only [decodeLoop]
      split
      · exact h
      · split
        · exact decodeLoop_distinct md meta fuel _ _
            (scan_for_nested_data_distinct md meta _ recs h)
        · exact h

theorem processScript_distinct (md : Str → Str) (meta : Metadata)
    (recs : List Record) (sc : Str) (h : distinctPairs recs) :
    distinctPairs (processScript md meta recs sc) := by
  simp only [processScript]
  split
  · split
    · split
      · exact process_inner_payload_distinct md meta _ recs h
      · exact h
    · exact h
  · exact h

theorem extract_json_from_html_distinct (md : Str → Str)
    (scripts : Str → List Str) (meta : Metadata) :
    ∀ (scs : List Str) (recs : List Record), distinctPairs recs →
      distinctPairs (scs.foldl (processScript md meta) recs)
  | [], _, h => h
  | sc :: rest, recs, h =>
      extract_json_from_html_distinct md scripts meta rest _
        (processScript_distinct md meta recs sc h)

theorem processEntry_distinct (md : Str → Str) (scripts : Str → List Str)
    (i : Nat) (tx : Transaction) (recs : List Record)
    (h : distinctPairs recs) :
    distinctPairs (processEntry md scripts i tx recs) := by
  simp only [processEntry]
  split
  · exact h
  · split
    · exact h
    · split
      · split
        · exact h
        · exact decodeLoop_distinct md _ _ _ recs h
      · split
        · exact extract_json_from_html_distinct md scripts _ _ recs h
        · exact h

theorem processEntries_distinct (md : Str → Str) (scripts : Str → List Str) :
    ∀ (txs : List Transaction) (i : Nat) (recs : List Record),
      distinctPairs recs → distinctPairs (processEntries md scripts i txs recs)
  | [], _, _, h => h
  | tx :: rest, i, recs, h =>
      processEntries_distinct md scripts rest (i + 1) _
        (processEntry_distinct md scripts i tx recs h)

theorem insertByDate_perm (a : Record) :
    ∀ l : List Record, (insertByDate a l).Perm (a :: l) := by
  intro l
  induction l with
  | nil => exact List.Perm.refl _
  | cons b l ih =>
      rw [insertByDate]
      split
      · exact List.Perm.refl _
      · exact (List.Perm.cons b ih).trans (List.Perm.swap a b l)

theorem sortByDate_perm : ∀ l : List Record, (sortByDate l).Perm l := by
  intro l
  induction l with
  | nil => exact List.Perm.refl _
  | cons a l ih =>
      exact (insertByDate_perm a (sortByDate l)).trans (List.Perm.cons a ih)

theorem distinctPairs_of_perm {l1 l2 : List Record} (p : l1.Perm l2)
    (h : distinctPairs l2) : distinctPairs l1 :=
  (p.pairwise_iff (fun hab h2 => hab ⟨h2.1.symm, h2.2.symm⟩)).mpr h

/-- Claim C5 (confirmed).  Appending is always via the deduplication
check, so the accumulated collection never holds two records with equal
(date, prompt) — preserved at every step of the Record Extractor and
holding for the final output of the pipeline, for every input. -/
theorem deduplication_invariant (md : Str → Str) (scripts : Str → List Str) :
    (∀ (recs : List Record) (meta : Metadata) (v : JVal), distinctPairs recs →
      distinctPairs (process_inner_payload md meta recs v))
    ∧ ∀ txs : List Transaction, distinctPairs (parse_har_file md scripts txs) := by
  constructor
  · exact fun recs meta v h => process_inner_payload_distinct md meta v recs h
  · intro txs
    exact distinctPairs_of_perm (sortByDate_perm _)
      (processEntries_distinct md scripts txs 0 [] List.Pairwise.nil)

/-- Witness for C5: the step-preservation half applied at a concrete
one-record state and payload. -/
theorem deduplication_invariant_witness :
    distinctPairs (process_inner_payload (fun s => s) ⟨0, none⟩
      [⟨0, [], none, ⟨0, none⟩, none, none⟩] (JVal.jarr exC3)) :=
  (deduplication_invariant (fun s => s) (fun _ => [])).1
    [⟨0, [], none, ⟨0, none⟩, none, none⟩] ⟨0, none⟩ (JVal.jarr exC3)
    (by simp [distinctPairs])

-- ## Session clustering (claim C6)

theorem analyzeGo_flatten :
    ∀ (l : List Record) (sessions : List (List Record)) (cur : List Record)
      (lastTs : Int),
      (analyzeGo sessions cur lastTs l).flatten = sessions.flatten ++ (cur ++ l) := by
  intro l
  induction l with
  | nil =>
      intro sessions cur lastTs
      show (if cur.isEmpty then sessions else sessions ++ [cur]).flatten = _
      cases cur with
      | nil => simp
      | cons a t => simp
  | cons r rs ih =>
      intro sessions cur lastTs
      show (if lastTs = 0 ∨ r.date - lastTs > TIME_THRESHOLD_US then
          analyzeGo (if cur.isEmpty then sessions else sessions ++ [cur]) [r] r.date rs
        else analyzeGo sessions (cur ++ [r]) r.date rs).flatten = _
      split
      · rw [ih]
        cases cur with
        | nil => simp
        | cons a t => simp
      · rw [ih]
        simp

theorem analyzeGo_no_nil :
    ∀ (l : List Record) (sessions : List (List Record)) (cur : List Record)
      (lastTs : Int), (∀ x ∈ sessions, x ≠ []) →
      ∀ x ∈ analyzeGo sessions cur lastTs l, x ≠ [] := by
  intro l
  induction l with
  | nil =>
      intro sessions cur lastTs hs
      show ∀ x ∈ (if cur.isEmpty then sessions else sessions ++ [cur]), x ≠ []
      cases cur with
      | nil => simpa using hs
      | cons a t =>
          intro x hx
          rw [if_neg (by simp)] at hx
          rcases List.mem_append.mp hx with hx | hx
          · exact hs x hx
          · rw [List.mem_singleton] at hx
            subst hx
            simp
  | cons r rs ih =>
      intro sessions cur lastTs hs
      show ∀ x ∈ (if lastTs = 0 ∨ r.date - lastTs > TIME_THRESHOLD_US then
          analyzeGo (if cur.isEmpty then sessions else sessions ++ [cur]) [r] r.date rs
        else analyzeGo sessions (cur ++ [r]) r.date rs), x ≠ []
      split
      · apply ih
        cases cur with
        | nil => simpa using hs
        | cons a t =>
            intro x hx
            rw [if_neg (by simp)] at hx
            rcases List.mem_append.mp hx with hx | hx
            · exact hs x hx
            · rw [List.mem_singleton] at hx
              subst hx
              simp
      · exact ih sessions (cur ++ [r]) r.date hs

theorem analyzeGo_eq_spec :
    ∀ (l cur : List Record) (lastTs : Int) (sessions : List (List Record)),
      cur ≠ [] → lastTs ≠ 0 → (∀ r ∈ l, r.date ≠ 0) →
      analyzeGo sessions cur lastTs l = sessions ++ sessionsSpecGo cur lastTs l := by
  intro l
  induction l with
  | nil =>
      intro cur lastTs sessions hcur _ _
      show (if cur.isEmpty then sessions else sessions ++ [cur]) = _
      cases cur with
      | nil => exact absurd rfl hcur
      | cons a t => rfl
  | cons r rs ih =>
      intro cur lastTs sessions hcur hlast hl
      have hr : r.date ≠ 0 := hl r (by simp)
      have hrs : ∀ x ∈ rs, x.date ≠ 0 := fun x hx => hl x (by simp [hx])
      show (if lastTs = 0 ∨ r.date - lastTs > TIME_THRESHOLD_US then
          analyzeGo (if cur.isEmpty then sessions else sessions ++ [cur]) [r] r.date rs
        else analyzeGo sessions (cur ++ [r]) r.date rs) = _
      by_cases hgap : r.date - lastTs > TIME_THRESHOLD_US
      · rw [if_pos (Or.inr hgap)]
        cases cur with
        | nil => exact absurd rfl hcur
        | cons a t =>
            show analyzeGo ((sessions ++ [a :: t])) [r] r.date rs = _
            rw [ih [r] r.date (sessions ++ [a :: t]) (by simp) hr hrs]
            show _ = sessions ++ sessionsSpecGo (a :: t) lastTs (r :: rs)
            rw [show sessionsSpecGo (a :: t) lastTs (r :: rs) =
              (a :: t) :: sessionsSpecGo [r] r.date rs from by
                show (if r.date - lastTs > TIME_THRESHOLD_US then _ else _) = _
                rw [if_pos hgap]]
            simp
      · rw [if_neg (by push_neg; exact ⟨hlast, by omega⟩)]
        rw [ih (cur ++ [r]) r.date sessions (by simp) hr hrs]
        rw [show sessionsSpecGo cur lastTs (r :: rs) =
          sessionsSpecGo (cur ++ [r]) r.date rs from by
            show (if r.date - lastTs > TIME_THRESHOLD_US then _ else _) = _
            rw [if_neg hgap]]

theorem insertByDate_sorted (a : Record) :
    ∀ l : List Record, List.Pairwise (fun x y => x.date ≤ y.date) l →
      List.Pairwise (fun x y => x.date ≤ y.date) (insertByDate a l) := by
  intro l
  induction l with
  | nil => intro _; simp [insertByDate]
  | cons b l ih =>
      intro h
      rw [insertByDate]
      rcases List.pairwise_cons.mp h with ⟨hb, hl⟩
      split
      · next hab =>
          refine List.pairwise_cons.mpr ⟨?_, h⟩
          intro x hx
          rcases List.mem_cons.mp hx with hx | hx
          · subst hx; exact hab
          · exact le_trans hab (hb x hx)
      · next hab =>
          refine List.pairwise_cons.mpr ⟨?_, ih hl⟩
          intro x hx
          rcases (insertByDate_perm a l).mem_iff.mp hx with hx
          rcases List.mem_cons.mp hx with hx | hx
          · subst hx; omega
          · exact hb x hx

theorem sortByDate_sorted :
    ∀ l : List Record, List.Pairwise (fun x y => x.date ≤ y.date) (sortByDate l)
  | [] => List.Pairwise.nil
  | a :: l => insertByDate_sorted a (sortByDate l) (sortByDate_sorted l)

/-- Claim C6 (corrected).  For any record collection none of whose dates
is exactly the epoch (microsecond 0), the clusterer equals the spec-side
splitter on the date-sorted sequence — sessions partition it with no gaps
or overlaps (their concatenation IS the sorted sequence, no session is
empty), and a new session starts exactly at gaps strictly above the
two-hour threshold.  The epoch exclusion is forced by the source's
`last_ts == 0` sentinel: a record dated exactly 0 makes the next record
unconditionally open a new session. -/
theorem session_partition (records : List Record)
    (h : ∀ r ∈ records, r.date ≠ 0) :
    analyze_sessions records = sessionsSpec (sortByDate records)
    ∧ (analyze_sessions records).flatten = sortByDate records
    ∧ (sortByDate records).Perm records
    ∧ List.Pairwise (fun x y => x.date ≤ y.date) (sortByDate records)
    ∧ ∀ sess ∈ analyze_sessions records, sess ≠ [] := by
  have hsortmem : ∀ r ∈ sortByDate records, r.date ≠ 0 := fun r hr =>
    h r ((sortByDate_perm records).mem_iff.mp hr)
  refine ⟨?_, ?_, sortByDate_perm records, sortByDate_sorted records, ?_⟩
  · unfold analyze_sessions
    cases hs : sortByDate records with
    | nil => rfl
    | cons r rs =>
        show (if (0 : Int) = 0 ∨ r.date - 0 > TIME_THRESHOLD_US then
            analyzeGo (if ([] : List Record).isEmpty then [] else [] ++ [[]])
              [r] r.date rs
          else analyzeGo [] ([] ++ [r]) r.date rs) = _
        rw [if_pos (Or.inl rfl)]
        have hr : r.date ≠ 0 := hsortmem r (by simp [hs])
        have hrs : ∀ x ∈ rs, x.date ≠ 0 := fun x hx => hsortmem x (by simp [hs, hx])
        exact analyzeGo_eq_spec rs [r] r.date [] (by simp) hr hrs
  · unfold analyze_sessions
    rw [analyzeGo_flatten]
    simp
  · exact analyzeGo_no_nil (sortByDate records) [] [] 0 (by simp)

/-- A record dated exactly at the epoch. -/
def rEpoch : Record := ⟨0, [], none, ⟨0, none⟩, none, none⟩

/-- A record 100 microseconds later. -/
def rLater : Record := ⟨100, [], none, ⟨0, none⟩, none, none⟩

/-- Counterexample to C6 as stated: the gap between the two records is far
below the threshold, yet the clusterer puts them in different sessions —
the `last_ts == 0` sentinel fires after the epoch-dated record. -/
theorem session_epoch_counterexample :
    rLater.date - rEpoch.date ≤ TIME_THRESHOLD_US
    ∧ analyze_sessions [rEpoch, rLater] = [[rEpoch], [rLater]] :=
  ⟨by decide, rfl⟩

/-- Witness for the corrected C6: three records spanning one boundary.
Dates are in microseconds: gaps of 7200s exactly (no split) and 7200s
plus one microsecond (split). -/
theorem session_partition_witness :
    analyze_sessions
        [⟨1000000, [], none, ⟨0, none⟩, none, none⟩,
         ⟨7201000000, [], none, ⟨0, none⟩, none, none⟩,
         ⟨14401000001, [], none, ⟨0, none⟩, none, none⟩] =
      sessionsSpec (sortByDate
        [⟨1000000, [], none, ⟨0, none⟩, none, none⟩,
         ⟨7201000000, [], none, ⟨0, none⟩, none, none⟩,
         ⟨14401000001, [], none, ⟨0, none⟩, none, none⟩]) :=
  (session_partition _ (by
    intro r hr
    simp at hr
    rcases hr with h | h | h <;> rw [h] <;> decide)).1

-- ## Local absorption of malformed transactions (claim C9)

theorem processEntries_append (md : Str → Str) (scripts : Str → List Str) :
    ∀ (xs ys : List Transaction) (i : Nat) (recs : List Record),
      processEntries md scripts i (xs ++ ys) recs =
        processEntries md scripts (i + xs.length) ys
          (processEntries md scripts i xs recs) := by
  intro xs
  induction xs with
  | nil => intro ys i recs; simp [processEntries]
  | cons x xs ih =>
      intro ys i recs
      show processEntries md scripts (i + 1) (xs ++ ys)
          (processEntry md scripts i x recs) =
        processEntries md scripts (i + (x :: xs).length) ys
          (processEntries md scripts (i + 1) xs (processEntry md scripts i x recs))
      rw [ih ys (i + 1) (processEntry md scripts i x recs)]
      have harith : i + 1 + xs.length = i + (x :: xs).length := by
        simp only [List.length_cons]
        omega
      rw [harith]

/-- Claim C9 (confirmed).  A JSON-typed transaction whose body, after
framing removal, fails the very first document parse contributes zero
records, and its failure is entirely local: replacing it by a bodyless
transaction (so that positions, hence the traceability indices, of every
other transaction are unchanged) yields the identical final output. -/
theorem malformed_transaction_local (md : Str → Str) (scripts : Str → List Str)
    (pre post : List Transaction) (bad : Transaction) (b : Str)
    (hmime : (strIn "application/json".toList bad.mimeType
      || strIn "text/javascript".toList bad.mimeType) = true)
    (hbody : bad.body = some b)
    (hfail : raw_decode ((stripJsonFraming b).dropWhile isPySpace) = none) :
    (∀ (i : Nat) (recs : List Record), processEntry md scripts i bad recs = recs)
    ∧ parse_har_file md scripts (pre ++ bad :: post) =
        parse_har_file md scripts
          (pre ++ (⟨bad.mimeType, none, bad.sessionHint⟩ : Transaction) :: post) := by
  have hstep : ∀ (i : Nat) (recs : List Record),
      processEntry md scripts i bad recs = recs := by
    intro i recs
    simp only [processEntry, hbody]
    by_cases hbe : b = []
    · rw [if_pos hbe]
    · rw [if_neg hbe, if_pos hmime]
      by_cases hse : stripJsonFraming b = []
      · rw [if_pos hse]
      · rw [if_neg hse]
        simp only [decodeLoop]
        split
        · rfl
        · rw [hfail]
  refine ⟨hstep, ?_⟩
  unfold parse_har_file
  rw [processEntries_append md scripts pre (bad :: post) 0 [],
    processEntries_append md scripts pre
      ((⟨bad.mimeType, none, bad.sessionHint⟩ : Transaction) :: post) 0 []]
  show sortByDate (processEntries md scripts (0 + pre.length + 1) post
      (processEntry md scripts (0 + pre.length) bad
        (processEntries md scripts 0 pre []))) = _
  rw [hstep (0 + pre.length) (processEntries md scripts 0 pre [])]
  rfl

/-- Witness for C9: a malformed `oops` body between nothing and the valid
stringified transaction of C1 contributes nothing and leaves the valid
transaction's output untouched. -/
theorem malformed_transaction_witness :
    (∀ (i : Nat) (recs : List Record),
      processEntry (fun s => s) (fun _ => []) i
        ⟨"application/json".toList, some "oops".toList, none⟩ recs = recs)
    ∧ parse_har_file (fun s => s) (fun _ => [])
        ([] ++ (⟨"application/json".toList, some "oops".toList, none⟩ : Transaction) ::
          [⟨"application/json".toList, some bodyC1Stringified, none⟩]) =
      parse_har_file (fun s => s) (fun _ => [])
        ([] ++ (⟨"application/json".toList, none, none⟩ : Transaction) ::
          [⟨"application/json".toList, some bodyC1Stringified, none⟩]) :=
  malformed_transaction_local (fun s => s) (fun _ => []) []
    [⟨"application/json".toList, some bodyC1Stringified, none⟩]
    ⟨"application/json".toList, some "oops".toList, none⟩ "oops".toList
    (by decide) rfl rfl
